import Mathlib

/-!
Verification of the concurrent event pipeline of
`src/src/main/cpp/jvmti_agent.cpp` (java-memory-analyzer JVMTI agent).

This file is a shallow embedding of the agent's core data structures and
operations, translated directly from the C++ source:

* `EventQueue` (lines 98-141): the fixed-capacity ring buffer
  (`EVENT_QUEUE_SIZE = 65536` slots) with `push`/`pop`.
* `AllocationTracker` (lines 146-263): the chained hash table over
  `ALLOCATION_HASH_SIZE = 1000003` buckets with `track`/`untrack`/`find`
  and the five aggregate counters.
* The sampling gate of `CallbackObjectAlloc` (lines 461-471), the
  `setSamplingInterval` JNI entry point (lines 1031-1039), the producer
  enqueue path of `CallbackObjectAlloc` (lines 495-518) and one iteration
  of `event_processor_loop` (lines 643-683).

Sequential semantics: the claims under verification all quantify over
sequential (non-interleaved) executions, so each C++ method is embedded as
a pure state-transforming function.  Machine integers (`uint64_t` counters,
`jlong` tags and sizes) are embedded as `Nat`: every quantity involved is
non-negative and the aggregate counters are monotone, so 64-bit wraparound
is unreachable in the executions the claims range over.  A `jlong` tag is
embedded as the `Nat` whose binary representation is the tag's 64-bit
pattern; the low 32 bits of the C++ arithmetic shift `tag >> 32` coincide
with the logical shift, so `hash_tag` below computes exactly the source's
bucket index for every pattern.
-/

/-! ## Configuration constants (source lines 36-40) -/

def MAX_STACK_DEPTH : Nat := 128

def EVENT_QUEUE_SIZE : Nat := 65536

def ALLOCATION_HASH_SIZE : Nat := 1000003

def SAMPLING_INTERVAL : Nat := 10

/-! ## Data structures (source lines 49-92) -/

/-- `AllocationInfo` (source lines 49-62).  Opaque runtime handles
(`jclass klass`, `jobject thread`) and the `jvmtiFrameInfo*` call-stack
copy are embedded as `Nat` identifiers resp. a `List Nat` of frame
descriptors; the claims never inspect their contents, only compare and
count them. -/
structure AllocationInfo where
  size : Nat
  timestamp : Nat
  klass : Nat
  thread : Nat
  frames : List Nat
  frame_count : Nat
  thread_id : Nat
  hash : Nat
deriving DecidableEq

/-- The default-constructed `AllocationInfo` (source lines 59-61). -/
def AllocationInfo.init : AllocationInfo :=
  { size := 0, timestamp := 0, klass := 0, thread := 0, frames := [],
    frame_count := 0, thread_id := 0, hash := 0 }

/-- `EventType` (source lines 67-73). -/
inductive EventType where
  | EVENT_ALLOC
  | EVENT_FREE
  | EVENT_GC_START
  | EVENT_GC_FINISH
  | EVENT_MONITOR
deriving DecidableEq

/-- `AllocationEvent` (source lines 78-92). -/
structure AllocationEvent where
  type : EventType
  tag : Nat
  size : Nat
  timestamp : Nat
  klass : Nat
  thread : Nat
  frames : List Nat
  frame_count : Nat
  thread_id : Nat
deriving DecidableEq

/-- The default-constructed `AllocationEvent` (source lines 89-91). -/
def AllocationEvent.init : AllocationEvent :=
  { type := EventType.EVENT_ALLOC, tag := 0, size := 0, timestamp := 0,
    klass := 0, thread := 0, frames := [], frame_count := 0, thread_id := 0 }

/-! ## EventQueue: the ring buffer (source lines 98-141)

The buffer array `AllocationEvent buffer[EVENT_QUEUE_SIZE]` is embedded as
a total function from slot index to event; `head`, `tail` and `count`
mirror the three atomics.  The claims treated here concern sequential use,
so each method is a pure function of the queue state. -/

structure EventQueue where
  buffer : Nat → AllocationEvent
  head : Nat
  tail : Nat
  count : Nat

/-- The initial queue: all slots default-constructed, `head = tail = 0`. -/
def emptyQueue : EventQueue :=
  { buffer := fun _ => AllocationEvent.init, head := 0, tail := 0, count := 0 }

/-- `EventQueue::push` (source lines 106-118): computes
`next_tail = (tail + 1) % EVENT_QUEUE_SIZE`; fails returning `false`
(queue full, event not stored) when `next_tail == head`, otherwise writes
the event at `buffer[tail]`, advances `tail` and increments `count`. -/
def EventQueue.push (q : EventQueue) (event : AllocationEvent) : Bool × EventQueue :=
  let current_tail := q.tail
  let next_tail := (current_tail + 1) % EVENT_QUEUE_SIZE
  if next_tail = q.head then
    (false, q)
  else
    (true,
     { buffer := fun i => if i = current_tail then event else q.buffer i,
       head := q.head, tail := next_tail, count := q.count + 1 })

/-- `EventQueue::pop` (source lines 120-131): fails (queue empty) when
`head == tail`, otherwise returns `buffer[head]`, advances `head` and
decrements `count`. -/
def EventQueue.pop (q : EventQueue) : Option AllocationEvent × EventQueue :=
  let current_head := q.head
  if current_head = q.tail then
    (none, q)
  else
    (some (q.buffer current_head),
     { buffer := q.buffer, head := (current_head + 1) % EVENT_QUEUE_SIZE,
       tail := q.tail, count := q.count - 1 })

/-! ## AllocationTracker: the chained hash table (source lines 146-263) -/

/-- `AllocationTracker::HashEntry` (source lines 148-154); the `next`
pointer chain of one bucket is embedded as a `List`. -/
structure HashEntry where
  tag : Nat
  info : AllocationInfo
deriving DecidableEq

/-- `AllocationTracker::hash_tag` (source lines 164-166):
`(uint32_t)(tag ^ (tag >> 32)) % ALLOCATION_HASH_SIZE`.  The cast to
`uint32_t` is the `% 2 ^ 32`. -/
def hash_tag (tag : Nat) : Nat :=
  ((tag ^^^ (tag >>> 32)) % 2 ^ 32) % ALLOCATION_HASH_SIZE

/-- The tracker state: the bucket array `HashEntry* buckets[...]` as a
function from bucket index to its chain, plus the five atomic counters
(source lines 156-162). -/
structure AllocationTracker where
  buckets : Nat → List HashEntry
  total_allocated : Nat
  total_freed : Nat
  current_usage : Nat
  alloc_count : Nat
  free_count : Nat

/-- The freshly constructed tracker (source lines 169-171): all buckets
empty, all counters zero. -/
def initialTracker : AllocationTracker :=
  { buckets := fun _ => [], total_allocated := 0, total_freed := 0,
    current_usage := 0, alloc_count := 0, free_count := 0 }

/-- `AllocationTracker::track` (source lines 173-186): unconditionally
allocates a new entry, prepends it to bucket `hash_tag tag`, then adds
`info.size` to `total_allocated` and `current_usage` and increments
`alloc_count`.  Note there is no check whether the tag is already present. -/
def AllocationTracker.track (t : AllocationTracker) (tag : Nat)
    (info : AllocationInfo) : AllocationTracker :=
  let h := hash_tag tag
  { buckets := fun i =>
      if i = h then { tag := tag, info := info } :: t.buckets h else t.buckets i,
    total_allocated := t.total_allocated + info.size,
    total_freed := t.total_freed,
    current_usage := t.current_usage + info.size,
    alloc_count := t.alloc_count + 1,
    free_count := t.free_count }

/-- The bucket-chain walk of `AllocationTracker::untrack` (source lines
191-213): unlinks the first entry whose `tag` matches and returns its
`info` together with the remaining chain; `none` when no entry matches. -/
def removeFirst (tag : Nat) : List HashEntry → Option (AllocationInfo × List HashEntry)
  | [] => none
  | curr :: rest =>
    if curr.tag = tag then
      some (curr.info, rest)
    else
      match removeFirst tag rest with
      | none => none
      | some (info, rest1) => some (info, curr :: rest1)

/-- `AllocationTracker::untrack` (source lines 188-215): on a match,
removes that entry from its bucket, adds its size to `total_freed`,
subtracts it from `current_usage`, increments `free_count` and returns the
info; on a miss returns `false` (here `none`) leaving the state untouched. -/
def AllocationTracker.untrack (t : AllocationTracker) (tag : Nat) :
    Option AllocationInfo × AllocationTracker :=
  let h := hash_tag tag
  match removeFirst tag (t.buckets h) with
  | none => (none, t)
  | some (info, rest) =>
    (some info,
     { buckets := fun i => if i = h then rest else t.buckets i,
       total_allocated := t.total_allocated,
       total_freed := t.total_freed + info.size,
       current_usage := t.current_usage - info.size,
       alloc_count := t.alloc_count,
       free_count := t.free_count + 1 })

/-- `AllocationTracker::find` (source lines 217-230): walks the bucket
chain of `hash_tag tag` and returns the info of the first entry whose tag
matches, `nullptr` (here `none`) otherwise. -/
def AllocationTracker.find (t : AllocationTracker) (tag : Nat) : Option AllocationInfo :=
  ((t.buckets (hash_tag tag)).find? (fun curr => curr.tag == tag)).map HashEntry.info

/-- Bytes held by one bucket chain: the sum of the entries' sizes. -/
def bucketBytes (l : List HashEntry) : Nat :=
  (l.map (fun e => e.info.size)).sum

/-- Total number of entries currently in the table. -/
def tableSize (t : AllocationTracker) : Nat :=
  Finset.sum (Finset.range ALLOCATION_HASH_SIZE) (fun i => (t.buckets i).length)

/-- Sum of the sizes of all entries currently in the table. -/
def tableUsage (t : AllocationTracker) : Nat :=
  Finset.sum (Finset.range ALLOCATION_HASH_SIZE) (fun i => bucketBytes (t.buckets i))

/-- Number of entries in the table whose tag is `tag` (they all live in
bucket `hash_tag tag`). -/
def countTag (t : AllocationTracker) (tag : Nat) : Nat :=
  (t.buckets (hash_tag tag)).countP (fun e => e.tag == tag)

/-! ## The sampling gate (source lines 461-471) and `setSamplingInterval`
(source lines 1031-1039) -/

/-- The sampling block at the top of `CallbackObjectAlloc` (source lines
466-471).  When `g_sampling_enabled` is set, `g_alloc_counter.fetch_add(1)`
returns the pre-increment value `counter` and the allocation is recorded
iff `counter % interval == 0`; when sampling is disabled the counter is
not touched and the allocation is always recorded.  Returns
(record-this-allocation, new counter value). -/
def samplingGate (enabled : Bool) (interval : Nat) (counter : Nat) : Bool × Nat :=
  if enabled then
    if counter % interval != 0 then (false, counter + 1)
    else (true, counter + 1)
  else
    (true, counter)

/-- The two sampling globals `g_sampling_enabled` / `g_sampling_interval`
(source lines 280-281); the interval is a C `int`. -/
structure SamplingState where
  g_sampling_enabled : Bool
  g_sampling_interval : Int
deriving DecidableEq

/-- `Java_com_jvm_analyzer_core_NativeMemoryTracker_setSamplingInterval`
(source lines 1031-1039): a positive argument stores the interval and
enables sampling; otherwise sampling is disabled and the stored interval
is left as it was. -/
def setSamplingInterval (interval : Int) (s : SamplingState) : SamplingState :=
  if interval > 0 then
    { g_sampling_enabled := true, g_sampling_interval := interval }
  else
    { g_sampling_enabled := false,
      g_sampling_interval := s.g_sampling_interval }

/-! ## The event processor loop (source lines 643-683) -/

/-- The consumer's observable state: `Running` continues to the next
iteration; `Stopped` is the thread exiting `event_processor_loop`.
`processed` counts the events popped and processed so far. -/
inductive ConsumerState where
  | Running (queue : EventQueue) (processed : Nat)
  | Stopped (queue : EventQueue) (processed : Nat)

/-- One iteration of `event_processor_loop` (source lines 643-683): the
`while (g_agent_active.load(...))` condition is checked first; when it is
false the loop body never runs again and the thread exits (`Stopped`).
Otherwise the iteration pops one event (processing it and releasing its
resources, lines 647-677) or, when the queue is empty, sleeps briefly
(lines 679-681) — either way remaining `Running`. -/
def event_processor_iter (g_agent_active : Bool) (q : EventQueue)
    (processed : Nat) : ConsumerState :=
  if g_agent_active then
    match q.pop with
    | (some _event, q2) => ConsumerState.Running q2 (processed + 1)
    | (none, q2) => ConsumerState.Running q2 processed
  else
    ConsumerState.Stopped q processed

/-- Iterated consumer: runs `event_processor_iter` once per entry of
`flags`, each entry being the value of `g_agent_active` the iteration
observes; stops as soon as an iteration observes `false`. -/
def event_processor_run : List Bool → EventQueue → Nat → ConsumerState
  | [], q, p => ConsumerState.Running q p
  | a :: rest, q, p =>
    match event_processor_iter a q p with
    | ConsumerState.Stopped q2 p2 => ConsumerState.Stopped q2 p2
    | ConsumerState.Running q2 p2 => event_processor_run rest q2 p2

/-! ## The producer enqueue path (source lines 495-518) -/

/-- The side effects the allocation callback performs while building and
enqueuing an `AllocationEvent`. -/
inductive ProducerOp where
  | newGlobalRefKlass
  | newGlobalRefThread
  | copyFrames
  | pushAttempt (ok : Bool)
  | callJavaCallback
  | freeFrames
  | deleteGlobalRef
  | incrementDropCount
deriving DecidableEq

/-- The effect trace of the enqueue portion of `CallbackObjectAlloc`
(source lines 495-518 and onwards): the event takes durable ownership of
the class and thread handles via `NewGlobalRef` (lines 501-502), copies
the captured frames when present (lines 507-510), then calls
`g_event_queue.push(event)` whose boolean result is discarded (line 513),
and falls through to the Java-layer notification (lines 516-579)
regardless of that result.  `hasFrames` is whether the stack capture
succeeded; `pushOk` is the result `push` returned. -/
def producerEnqueuePath (hasFrames : Bool) (pushOk : Bool) : List ProducerOp :=
  [ProducerOp.newGlobalRefKlass, ProducerOp.newGlobalRefThread]
    ++ (if hasFrames then [ProducerOp.copyFrames] else [])
    ++ [ProducerOp.pushAttempt pushOk, ProducerOp.callJavaCallback]

/-! ## Iterated operations used by the claims -/

/-- A sequential burst of pushes: `pushManyF es k` pushes `es 0`, ...,
`es (k-1)` onto the queue starting from `emptyQueue`; the boolean is
whether every push so far succeeded. -/
def pushManyF (es : Nat → AllocationEvent) : Nat → EventQueue × Bool
  | 0 => (emptyQueue, true)
  | k + 1 =>
    let r := pushManyF es k
    let p := r.1.push (es k)
    (p.2, r.2 && p.1)

/-- One sequential ledger operation: an insert (`track`) or a remove
(`untrack`). -/
inductive LedgerOp where
  | ins (tag : Nat) (info : AllocationInfo)
  | rem (tag : Nat)

/-- Runs a sequence of ledger operations left to right. -/
def runOps : List LedgerOp → AllocationTracker → AllocationTracker
  | [], t => t
  | LedgerOp.ins tag info :: rest, t => runOps rest (t.track tag info)
  | LedgerOp.rem tag :: rest, t => runOps rest (t.untrack tag).2

/-- `K` consecutive calls of the sampling gate with sampling enabled and
counter starting at `c`: the list of decisions, and the final counter. -/
def gateRun (interval c : Nat) : Nat → List Bool × Nat
  | 0 => ([], c)
  | k + 1 =>
    let r := gateRun interval c k
    let g := samplingGate true interval r.2
    (r.1 ++ [g.1], g.2)

/-- Number of counter values in `[c, c + K)` that are multiples of `N`,
i.e. the number of `true` decisions the enabled gate makes over `K` calls
starting at counter `c`. -/
def hitCount (N c : Nat) : Nat → Nat
  | 0 => 0
  | K + 1 => hitCount N c K + (if (c + K) % N = 0 then 1 else 0)

/-- Ceiling division `(m + N - 1) / N`. -/
def ceilDivN (N m : Nat) : Nat := (m + N - 1) / N

/-! ## Helper lemmas: the hash table -/

lemma ALLOCATION_HASH_SIZE_pos : 0 < ALLOCATION_HASH_SIZE := by decide

lemma hash_tag_lt (tag : Nat) : hash_tag tag < ALLOCATION_HASH_SIZE :=
  Nat.mod_lt _ ALLOCATION_HASH_SIZE_pos

lemma track_buckets_same (t : AllocationTracker) (tag : Nat) (info : AllocationInfo) :
    (t.track tag info).buckets (hash_tag tag)
      = { tag := tag, info := info } :: t.buckets (hash_tag tag) := by
  simp [AllocationTracker.track]

lemma track_buckets_other (t : AllocationTracker) (tag : Nat) (info : AllocationInfo)
    (i : Nat) (hi : i ≠ hash_tag tag) :
    (t.track tag info).buckets i = t.buckets i := by
  simp [AllocationTracker.track, hi]

lemma find_track_same (t : AllocationTracker) (tag : Nat) (info : AllocationInfo) :
    (t.track tag info).find tag = some info := by
  simp [AllocationTracker.find, AllocationTracker.track, List.find?]

lemma removeFirst_cons_self (tag : Nat) (info : AllocationInfo) (l : List HashEntry) :
    removeFirst tag ({ tag := tag, info := info } :: l) = some (info, l) := by
  simp [removeFirst]

lemma removeFirst_eq_none_of_find?_eq_none (tag : Nat) (l : List HashEntry)
    (h : l.find? (fun e => e.tag == tag) = none) : removeFirst tag l = none := by
  induction l with
  | nil => rfl
  | cons e rest ih =>
    rw [List.find?_cons] at h
    by_cases he : (e.tag == tag) = true
    · rw [he] at h
      exact absurd h (by simp)
    · rw [Bool.not_eq_true] at he
      rw [he] at h
      have he2 : ¬ e.tag = tag := by
        simpa using he
      simp [removeFirst, he2, ih h]

lemma removeFirst_some_spec (tag : Nat) (l : List HashEntry)
    (info : AllocationInfo) (rest : List HashEntry)
    (h : removeFirst tag l = some (info, rest)) :
    bucketBytes l = info.size + bucketBytes rest ∧ l.length = rest.length + 1 := by
  induction l generalizing info rest with
  | nil => exact absurd h (by simp [removeFirst])
  | cons e l2 ih =>
    by_cases he : e.tag = tag
    · rw [removeFirst, if_pos he] at h
      simp only [Option.some.injEq, Prod.mk.injEq] at h
      obtain ⟨h1, h2⟩ := h
      subst h1
      subst h2
      simp [bucketBytes]
    · rw [removeFirst, if_neg he] at h
      cases hr : removeFirst tag l2 with
      | none =>
        rw [hr] at h
        exact absurd h (by simp)
      | some p =>
        obtain ⟨info2, rest2⟩ := p
        rw [hr] at h
        simp only [Option.some.injEq, Prod.mk.injEq] at h
        obtain ⟨h1, h2⟩ := h
        obtain ⟨ihb, ihl⟩ := ih info2 rest2 hr
        subst h1
        subst h2
        refine ⟨?_, ?_⟩
        · simp only [bucketBytes, List.map_cons, List.sum_cons] at ihb ⊢
          omega
        · simp only [List.length_cons] at ihl ⊢
          omega

/-! ## Helper lemmas: sums over the bucket array -/

lemma sum_range_update (n h v : Nat) (f : Nat → Nat) (hh : h < n) :
    Finset.sum (Finset.range n) (fun i => if i = h then v else f i) + f h
      = v + Finset.sum (Finset.range n) f := by
  have hmem : h ∈ Finset.range n := Finset.mem_range.mpr hh
  have e0 : (fun i => if i = h then v else f i) = Function.update f h v := by
    funext i
    rw [Function.update_apply]
  have e1 : Finset.sum (Finset.range n) (fun i => if i = h then v else f i)
      = v + Finset.sum ((Finset.range n).erase h) f := by
    rw [e0, Finset.sum_update_of_mem hmem, Finset.erase_eq]
  have e2 : f h + Finset.sum ((Finset.range n).erase h) f
      = Finset.sum (Finset.range n) f := Finset.add_sum_erase _ f hmem
  omega

lemma sum_buckets_set (t : AllocationTracker) (h : Nat) (hh : h < ALLOCATION_HASH_SIZE)
    (newBucket : List HashEntry) (m : List HashEntry → Nat) :
    Finset.sum (Finset.range ALLOCATION_HASH_SIZE)
        (fun i => m (if i = h then newBucket else t.buckets i)) + m (t.buckets h)
      = m newBucket
        + Finset.sum (Finset.range ALLOCATION_HASH_SIZE) (fun i => m (t.buckets i)) := by
  have e : (fun i => m (if i = h then newBucket else t.buckets i))
      = (fun i => if i = h then m newBucket else m (t.buckets i)) := by
    funext i
    by_cases hi : i = h <;> simp [hi]
  rw [e]
  exact sum_range_update _ h _ _ hh

lemma tableUsage_track (t : AllocationTracker) (tag : Nat) (info : AllocationInfo) :
    tableUsage (t.track tag info) = tableUsage t + info.size := by
  have h := sum_buckets_set t (hash_tag tag) (hash_tag_lt tag)
      ({ tag := tag, info := info } :: t.buckets (hash_tag tag)) bucketBytes
  have e : tableUsage (t.track tag info)
      = Finset.sum (Finset.range ALLOCATION_HASH_SIZE)
          (fun i => bucketBytes
            (if i = hash_tag tag
             then { tag := tag, info := info } :: t.buckets (hash_tag tag)
             else t.buckets i)) := rfl
  have hb : bucketBytes ({ tag := tag, info := info } :: t.buckets (hash_tag tag))
      = info.size + bucketBytes (t.buckets (hash_tag tag)) := by
    simp [bucketBytes]
  have e2 : tableUsage t
      = Finset.sum (Finset.range ALLOCATION_HASH_SIZE)
          (fun i => bucketBytes (t.buckets i)) := rfl
  rw [e]
  rw [hb] at h
  omega

lemma tableSize_track (t : AllocationTracker) (tag : Nat) (info : AllocationInfo) :
    tableSize (t.track tag info) = tableSize t + 1 := by
  have h := sum_buckets_set t (hash_tag tag) (hash_tag_lt tag)
      ({ tag := tag, info := info } :: t.buckets (hash_tag tag)) List.length
  have e : tableSize (t.track tag info)
      = Finset.sum (Finset.range ALLOCATION_HASH_SIZE)
          (fun i => List.length
            (if i = hash_tag tag
             then { tag := tag, info := info } :: t.buckets (hash_tag tag)
             else t.buckets i)) := rfl
  have hb : List.length ({ tag := tag, info := info } :: t.buckets (hash_tag tag))
      = List.length (t.buckets (hash_tag tag)) + 1 := by
    simp
  have e2 : tableSize t
      = Finset.sum (Finset.range ALLOCATION_HASH_SIZE)
          (fun i => List.length (t.buckets i)) := rfl
  rw [e]
  rw [hb] at h
  omega

lemma untrack_found (t : AllocationTracker) (tag : Nat) (info : AllocationInfo)
    (rest : List HashEntry)
    (hr : removeFirst tag (t.buckets (hash_tag tag)) = some (info, rest)) :
    t.untrack tag
      = (some info,
         { buckets := fun i => if i = hash_tag tag then rest else t.buckets i,
           total_allocated := t.total_allocated,
           total_freed := t.total_freed + info.size,
           current_usage := t.current_usage - info.size,
           alloc_count := t.alloc_count,
           free_count := t.free_count + 1 }) := by
  simp only [AllocationTracker.untrack]
  rw [hr]

lemma untrack_miss_eq (t : AllocationTracker) (tag : Nat)
    (hr : removeFirst tag (t.buckets (hash_tag tag)) = none) :
    t.untrack tag = (none, t) := by
  simp only [AllocationTracker.untrack]
  rw [hr]

lemma tableUsage_untrack_found (t : AllocationTracker) (tag : Nat)
    (info : AllocationInfo) (rest : List HashEntry)
    (hr : removeFirst tag (t.buckets (hash_tag tag)) = some (info, rest)) :
    tableUsage (t.untrack tag).2 + info.size = tableUsage t
      ∧ tableSize (t.untrack tag).2 + 1 = tableSize t := by
  obtain ⟨hbytes, hlen⟩ := removeFirst_some_spec tag _ info rest hr
  rw [untrack_found t tag info rest hr]
  have hU := sum_buckets_set t (hash_tag tag) (hash_tag_lt tag) rest bucketBytes
  have hL := sum_buckets_set t (hash_tag tag) (hash_tag_lt tag) rest List.length
  have eU : tableUsage
      { buckets := fun i => if i = hash_tag tag then rest else t.buckets i,
        total_allocated := t.total_allocated,
        total_freed := t.total_freed + info.size,
        current_usage := t.current_usage - info.size,
        alloc_count := t.alloc_count,
        free_count := t.free_count + 1 }
      = Finset.sum (Finset.range ALLOCATION_HASH_SIZE)
          (fun i => bucketBytes (if i = hash_tag tag then rest else t.buckets i)) := rfl
  have eL : tableSize
      { buckets := fun i => if i = hash_tag tag then rest else t.buckets i,
        total_allocated := t.total_allocated,
        total_freed := t.total_freed + info.size,
        current_usage := t.current_usage - info.size,
        alloc_count := t.alloc_count,
        free_count := t.free_count + 1 }
      = Finset.sum (Finset.range ALLOCATION_HASH_SIZE)
          (fun i => List.length (if i = hash_tag tag then rest else t.buckets i)) := rfl
  have eU2 : tableUsage t
      = Finset.sum (Finset.range ALLOCATION_HASH_SIZE)
          (fun i => bucketBytes (t.buckets i)) := rfl
  have eL2 : tableSize t
      = Finset.sum (Finset.range ALLOCATION_HASH_SIZE)
          (fun i => List.length (t.buckets i)) := rfl
  constructor
  · rw [eU, eU2]
    omega
  · rw [eL, eL2]
    omega

/-! ## Helper lemmas: counter consistency along sequential runs -/

lemma track_current_usage (t : AllocationTracker) (tag : Nat) (info : AllocationInfo) :
    (t.track tag info).current_usage = t.current_usage + info.size := rfl

lemma track_alloc_count (t : AllocationTracker) (tag : Nat) (info : AllocationInfo) :
    (t.track tag info).alloc_count = t.alloc_count + 1 := rfl

lemma track_free_count (t : AllocationTracker) (tag : Nat) (info : AllocationInfo) :
    (t.track tag info).free_count = t.free_count := rfl

lemma runOps_cons_ins (tag : Nat) (info : AllocationInfo) (rest : List LedgerOp)
    (t : AllocationTracker) :
    runOps (LedgerOp.ins tag info :: rest) t = runOps rest (t.track tag info) := rfl

lemma runOps_cons_rem (tag : Nat) (rest : List LedgerOp) (t : AllocationTracker) :
    runOps (LedgerOp.rem tag :: rest) t = runOps rest (t.untrack tag).2 := rfl

lemma runOps_inv (ops : List LedgerOp) :
    ∀ t : AllocationTracker,
      t.current_usage = tableUsage t →
      t.alloc_count = tableSize t + t.free_count →
      (runOps ops t).current_usage = tableUsage (runOps ops t)
        ∧ (runOps ops t).alloc_count
            = tableSize (runOps ops t) + (runOps ops t).free_count := by
  induction ops with
  | nil =>
    intro t h1 h2
    exact ⟨h1, h2⟩
  | cons op rest ih =>
    intro t h1 h2
    cases op with
    | ins tag info =>
      rw [runOps_cons_ins]
      refine ih (t.track tag info) ?_ ?_
      · have hu := tableUsage_track t tag info
        have hc := track_current_usage t tag info
        omega
      · have hs := tableSize_track t tag info
        have ha := track_alloc_count t tag info
        have hf := track_free_count t tag info
        omega
    | rem tag =>
      rw [runOps_cons_rem]
      cases hr : removeFirst tag (t.buckets (hash_tag tag)) with
      | none =>
        have he := untrack_miss_eq t tag hr
        have he2 : (t.untrack tag).2 = t := by rw [he]
        rw [he2]
        exact ih t h1 h2
      | some p =>
        obtain ⟨info2, rest2⟩ := p
        have he := untrack_found t tag info2 rest2 hr
        obtain ⟨hta, htl⟩ := tableUsage_untrack_found t tag info2 rest2 hr
        have hc : ((t.untrack tag).2).current_usage = t.current_usage - info2.size := by
          rw [he]
        have ha : ((t.untrack tag).2).alloc_count = t.alloc_count := by
          rw [he]
        have hf : ((t.untrack tag).2).free_count = t.free_count + 1 := by
          rw [he]
        refine ih (t.untrack tag).2 ?_ ?_
        · omega
        · omega

/-! ## Helper lemmas: the ring buffer -/

lemma push_full (q : EventQueue) (e : AllocationEvent)
    (h : (q.tail + 1) % EVENT_QUEUE_SIZE = q.head) : q.push e = (false, q) := by
  simp only [EventQueue.push]
  rw [if_pos h]

lemma push_ok (q : EventQueue) (e : AllocationEvent)
    (h : (q.tail + 1) % EVENT_QUEUE_SIZE ≠ q.head) :
    q.push e
      = (true,
         { buffer := fun i => if i = q.tail then e else q.buffer i,
           head := q.head, tail := (q.tail + 1) % EVENT_QUEUE_SIZE,
           count := q.count + 1 }) := by
  simp only [EventQueue.push]
  rw [if_neg h]

lemma pushManyF_spec (es : Nat → AllocationEvent) :
    ∀ k, k ≤ 65535 →
      (pushManyF es k).1.head = 0 ∧ (pushManyF es k).1.tail = k
        ∧ (pushManyF es k).1.count = k ∧ (pushManyF es k).2 = true := by
  intro k
  induction k with
  | zero =>
    intro _
    exact ⟨rfl, rfl, rfl, rfl⟩
  | succ k ih =>
    intro hk
    obtain ⟨h1, h2, h3, h4⟩ := ih (by omega)
    have hlt : k + 1 < EVENT_QUEUE_SIZE := by
      simp only [EVENT_QUEUE_SIZE]
      omega
    have hmod : (k + 1) % EVENT_QUEUE_SIZE = k + 1 := Nat.mod_eq_of_lt hlt
    have hne : ((pushManyF es k).1.tail + 1) % EVENT_QUEUE_SIZE
        ≠ (pushManyF es k).1.head := by
      rw [h1, h2, hmod]
      omega
    have hp := push_ok (pushManyF es k).1 (es k) hne
    refine ⟨?_, ?_, ?_, ?_⟩ <;>
      simp [pushManyF, hp, h1, h2, h3, h4, hmod]

lemma push_at_full (es : Nat → AllocationEvent) :
    (pushManyF es 65535).1.push (es 65535) = (false, (pushManyF es 65535).1) := by
  obtain ⟨h1, h2, h3, h4⟩ := pushManyF_spec es 65535 (by omega)
  apply push_full
  rw [h1, h2]
  decide

/-! ## Helper lemmas: the sampling gate -/

lemma samplingGate_true_fst (interval counter : Nat) :
    (samplingGate true interval counter).1 = (counter % interval == 0) := by
  by_cases h : counter % interval = 0
  · simp [samplingGate, h]
  · simp [samplingGate, h]

lemma samplingGate_true_snd (interval counter : Nat) :
    (samplingGate true interval counter).2 = counter + 1 := by
  by_cases h : counter % interval = 0
  · simp [samplingGate, h]
  · simp [samplingGate, h]

lemma gateRun_snd (N c : Nat) : ∀ K, (gateRun N c K).2 = c + K := by
  intro K
  induction K with
  | zero => rfl
  | succ K ih =>
    simp only [gateRun, samplingGate_true_snd, ih]
    omega

lemma gateRun_fst (N c : Nat) :
    ∀ K, (gateRun N c K).1 = (List.range K).map (fun j => ((c + j) % N == 0)) := by
  intro K
  induction K with
  | zero => rfl
  | succ K ih =>
    simp only [gateRun, ih, List.range_succ, List.map_append, List.map_cons,
      List.map_nil, samplingGate_true_fst, gateRun_snd]

lemma gateRun_count (N c : Nat) :
    ∀ K, (gateRun N c K).1.count true = hitCount N c K := by
  intro K
  induction K with
  | zero => rfl
  | succ K ih =>
    have hfst : (samplingGate true N (gateRun N c K).2).1 = ((c + K) % N == 0) := by
      rw [gateRun_snd, samplingGate_true_fst]
    simp only [gateRun, List.count_append, ih, hitCount, hfst]
    by_cases h : (c + K) % N = 0
    · simp [h]
    · simp [h]

lemma addNsub1_div (N x : Nat) (hN : 0 < N) (hx : x < 2 * N) :
    (x + N - 1) / N = if x = 0 then 0 else if x ≤ N then 1 else 2 := by
  by_cases h0 : x = 0
  · rw [if_pos h0, h0]
    exact Nat.div_eq_of_lt (by omega)
  · rw [if_neg h0]
    by_cases h1 : x ≤ N
    · rw [if_pos h1, Nat.div_eq_sub_div hN (by omega), Nat.div_eq_of_lt (by omega)]
    · rw [if_neg h1, Nat.div_eq_sub_div hN (by omega),
        Nat.div_eq_sub_div hN (by omega), Nat.div_eq_of_lt (by omega)]

lemma ceilDivN_succ (N m : Nat) (hN : 1 ≤ N) :
    ceilDivN N (m + 1) = ceilDivN N m + (if m % N = 0 then 1 else 0) := by
  have hdm := Nat.div_add_mod m N
  have hrlt : m % N < N := Nat.mod_lt m hN
  have he : m + 1 + N - 1 = m + N := by omega
  have h2 : (m + N) / N = m / N + 1 := Nat.add_div_right m hN
  unfold ceilDivN
  rw [he, h2]
  by_cases hr : m % N = 0
  · rw [if_pos hr]
    have e1 : m + N - 1 = N * (m / N) + (N - 1) := by omega
    rw [e1, Nat.mul_add_div hN, Nat.div_eq_of_lt (show N - 1 < N by omega)]
  · rw [if_neg hr]
    have e1 : m + N - 1 = N * (m / N) + (m % N + N - 1) := by omega
    rw [e1, Nat.mul_add_div hN,
      Nat.div_eq_sub_div hN (show N ≤ m % N + N - 1 by omega),
      Nat.div_eq_of_lt (show m % N + N - 1 - N < N by omega)]

lemma hitCount_add_ceil (N : Nat) (hN : 1 ≤ N) (c : Nat) :
    ∀ K, hitCount N c K + ceilDivN N c = ceilDivN N (c + K) := by
  intro K
  induction K with
  | zero => simp [hitCount]
  | succ K ih =>
    have hs := ceilDivN_succ N (c + K) hN
    have e : c + (K + 1) = c + K + 1 := by omega
    rw [hitCount, e, hs]
    omega

lemma hitCount_floor_or_ceil (N : Nat) (hN : 1 ≤ N) (c K : Nat) :
    hitCount N c K = K / N ∨ hitCount N c K = (K + N - 1) / N := by
  have h0 := hitCount_add_ceil N hN c K
  have hrc : c % N < N := Nat.mod_lt c hN
  have hrK : K % N < N := Nat.mod_lt K hN
  have hdc := Nat.div_add_mod c N
  have hdK := Nat.div_add_mod K N
  have e1 : c + N - 1 = N * (c / N) + (c % N + N - 1) := by omega
  have e2 : K + N - 1 = N * (K / N) + (K % N + N - 1) := by omega
  have e3 : c + K + N - 1 = N * (c / N + K / N) + (c % N + K % N + N - 1) := by
    rw [Nat.mul_add]
    omega
  have hceilc : ceilDivN N c = c / N + (c % N + N - 1) / N := by
    unfold ceilDivN
    rw [e1, Nat.mul_add_div hN]
  have hceilK : (K + N - 1) / N = K / N + (K % N + N - 1) / N := by
    rw [e2, Nat.mul_add_div hN]
  have hceilcK : ceilDivN N (c + K) = c / N + K / N + (c % N + K % N + N - 1) / N := by
    unfold ceilDivN
    rw [e3, Nat.mul_add_div hN]
  have hd1 := addNsub1_div N (c % N) hN (by omega)
  have hd2 := addNsub1_div N (K % N) hN (by omega)
  have hd3 := addNsub1_div N (c % N + K % N) hN (by omega)
  rw [hceilK]
  rw [hceilc, hceilcK] at h0
  by_cases hc0 : c % N = 0
  · by_cases hK0 : K % N = 0
    · rw [if_pos hc0] at hd1
      rw [if_pos hK0] at hd2
      rw [if_pos (by omega)] at hd3
      omega
    · rw [if_pos hc0] at hd1
      rw [if_neg hK0, if_pos (by omega)] at hd2
      rw [if_neg (by omega), if_pos (by omega)] at hd3
      omega
  · by_cases hK0 : K % N = 0
    · rw [if_neg hc0, if_pos (by omega)] at hd1
      rw [if_pos hK0] at hd2
      rw [if_neg (by omega), if_pos (by omega)] at hd3
      omega
    · rw [if_neg hc0, if_pos (by omega)] at hd1
      rw [if_neg hK0, if_pos (by omega)] at hd2
      by_cases hsum : c % N + K % N ≤ N
      · rw [if_neg (by omega), if_pos hsum] at hd3
        omega
      · rw [if_neg (by omega), if_neg hsum] at hd3
        omega

/-! ## Concrete records used by witnesses and counterexamples -/

/-- A concrete allocation record of size 100. -/
def rEx1 : AllocationInfo :=
  { size := 100, timestamp := 1, klass := 1, thread := 1, frames := [],
    frame_count := 0, thread_id := 1, hash := 0 }

/-- A concrete allocation record of size 200, distinct from `rEx1`. -/
def rEx2 : AllocationInfo :=
  { size := 200, timestamp := 2, klass := 2, thread := 2, frames := [],
    frame_count := 0, thread_id := 2, hash := 0 }

/-- A queue holding 100 events, as produced by 100 pushes from empty. -/
def q100 : EventQueue := (pushManyF (fun _ => AllocationEvent.init) 100).1

/-! ## Claims -/

/-- Claim C1, counterexample.  The claim says that after `insert(id, r1)`
followed by `insert(id, r2)` exactly one entry for `id` exists.  On the
code, `track` prepends unconditionally: after tracking tag 42 twice the
table holds two entries for tag 42, not one. -/
theorem claim_C1_counterexample :
    countTag ((initialTracker.track 42 rEx1).track 42 rEx2) 42 = 2
      ∧ (countTag ((initialTracker.track 42 rEx1).track 42 rEx2) 42 == 1) = false := by
  constructor
  · decide
  · decide

/-- Claim C1, amended.  After `insert(id, r1)` then `insert(id, r2)` with
no intervening remove, the table holds two entries for `id` more than
before (the second insert prepends a duplicate rather than overwriting),
and `find(id)` returns `r2`, the most recently inserted record. -/
theorem claim_C1_amended (t : AllocationTracker) (tag : Nat) (r1 r2 : AllocationInfo) :
    ((t.track tag r1).track tag r2).find tag = some r2
      ∧ countTag ((t.track tag r1).track tag r2) tag = countTag t tag + 2 := by
  constructor
  · exact find_track_same (t.track tag r1) tag r2
  · unfold countTag
    rw [track_buckets_same, track_buckets_same]
    simp [List.countP_cons]

set_option maxRecDepth 8000 in
/-- Claim C2, counterexample.  The claim says that after 100 events are
pushed and stop is issued (with no further pushes), the consumer processes
all 100 events before reaching `Stopped`.  On the code, the consumer's
`while (g_agent_active)` condition fails at the very next check: it
reaches `Stopped` with the 100 events still in the channel and its
processed count unchanged (0 processed, not 100). -/
theorem claim_C2_counterexample :
    event_processor_run [false, false, false] q100 0 = ConsumerState.Stopped q100 0
      ∧ q100.count = 100 := by
  constructor
  · rfl
  · exact (pushManyF_spec (fun _ => AllocationEvent.init) 100 (by omega)).2.2.1

/-- Claim C2, amended.  Once the stop signal is observed (the active flag
is false), the consumer exits at its next loop-condition check without
popping anything: whatever the channel holds, it reaches `Stopped`
immediately, with the queue state and processed count unchanged.  Events
remaining in the channel are not processed; there is no drain phase. -/
theorem claim_C2_amended (flags : List Bool) (q : EventQueue) (processed : Nat) :
    event_processor_run (false :: flags) q processed
      = ConsumerState.Stopped q processed := rfl

/-- Claim C3, counterexample.  The claim says that when the push of an
allocation event fails (channel full), the producer immediately releases
the event's owned resources and counts the drop.  On the code path with a
failed push (`pushAttempt false`), the producer performs no release of the
frames copy, no release of the global references, and no drop-counter
increment: `CallbackObjectAlloc` discards the result of
`g_event_queue.push(event)` (line 513). -/
theorem claim_C3_counterexample :
    (producerEnqueuePath true false).contains (ProducerOp.pushAttempt false) = true
      ∧ (producerEnqueuePath true false).contains ProducerOp.freeFrames = false
      ∧ (producerEnqueuePath true false).contains ProducerOp.deleteGlobalRef = false
      ∧ (producerEnqueuePath true false).contains ProducerOp.incrementDropCount = false := by
  decide

/-- Claim C3, amended.  Whether or not the push succeeds, the producer
path of `CallbackObjectAlloc` performs no release of the event's owned
resources (frames copy, durable handle wrappers) and maintains no drop
counter; on failure the event is silently leaked.  The failure is indeed
non-fatal: the callback falls through to the Java-layer notification
regardless of the push result. -/
theorem claim_C3_amended (hasFrames pushOk : Bool) :
    (producerEnqueuePath hasFrames pushOk).contains ProducerOp.freeFrames = false
      ∧ (producerEnqueuePath hasFrames pushOk).contains ProducerOp.deleteGlobalRef = false
      ∧ (producerEnqueuePath hasFrames pushOk).contains ProducerOp.incrementDropCount = false
      ∧ (producerEnqueuePath hasFrames pushOk).contains ProducerOp.callJavaCallback = true := by
  cases hasFrames <;> cases pushOk <;> decide

/-- Claim C4, counterexample.  The claim says the shared counter is
incremented exactly once on every call, regardless of whether sampling is
enabled.  On the code, with sampling disabled and counter 5, the gate
leaves the counter at 5 (not 6): `g_alloc_counter.fetch_add(1)` is inside
the `if (g_sampling_enabled)` block.  With sampling enabled the same call
does advance the counter to 6. -/
theorem claim_C4_counterexample :
    (samplingGate false 10 5).2 = 5
      ∧ ((samplingGate false 10 5).2 == 5 + 1) = false
      ∧ (samplingGate true 10 5).2 = 6 := by
  decide

/-- Claim C4, amended.  The sampling gate increments the shared counter
exactly once per call when sampling is enabled and does not touch it when
sampling is disabled; it returns true iff `enabled` is false or the
pre-increment counter value modulo the interval is 0. -/
theorem claim_C4_amended (enabled : Bool) (interval counter : Nat) :
    (samplingGate enabled interval counter).2
        = (if enabled then counter + 1 else counter)
      ∧ (samplingGate enabled interval counter).1
        = (!enabled || (counter % interval == 0)) := by
  cases enabled
  · exact ⟨rfl, rfl⟩
  · refine ⟨samplingGate_true_snd interval counter, ?_⟩
    rw [samplingGate_true_fst]
    simp

lemma pushManyF_succ (es : Nat → AllocationEvent) (k : Nat) :
    pushManyF es (k + 1)
      = (((pushManyF es k).1.push (es k)).2,
         (pushManyF es k).2 && ((pushManyF es k).1.push (es k)).1) := rfl

lemma push_fst_of_ne (q : EventQueue) (e : AllocationEvent)
    (h : (q.tail + 1) % EVENT_QUEUE_SIZE ≠ q.head) : (q.push e).1 = true := by
  rw [push_ok q e h]

lemma pop_head_of_ne (q : EventQueue) (h : ¬ q.head = q.tail) :
    q.pop.2.head = (q.head + 1) % EVENT_QUEUE_SIZE ∧ q.pop.2.tail = q.tail := by
  simp only [EventQueue.pop]
  rw [if_neg h]
  exact ⟨rfl, rfl⟩

/-- Claim C5, counterexample.  The claim says that for the channel of
C = 65536 slots, C consecutive pushes from empty all succeed.  On the
code, the ring buffer declares a slot full when `(tail + 1) % N == head`,
so one slot is always sacrificed: the 65536th push fails and the burst of
65536 pushes does not entirely succeed. -/
theorem claim_C5_counterexample :
    (pushManyF (fun _ => AllocationEvent.init) 65536).2 = false := by
  have h4 := (pushManyF_spec (fun _ => AllocationEvent.init) 65535 (by omega)).2.2.2
  have hfull := push_at_full (fun _ => AllocationEvent.init)
  have e : (65536 : Nat) = 65535 + 1 := rfl
  rw [e, pushManyF_succ, hfull, h4]
  rfl

/-- Claim C5, amended.  For the 65536-slot channel the usable capacity is
65535: starting from empty, 65535 consecutive pushes with zero pops all
succeed, the 65536th push returns failure leaving the queue state (and in
particular every buffer slot) untouched, and after one pop the next push
succeeds. -/
theorem claim_C5_amended (es : Nat → AllocationEvent) :
    (pushManyF es 65535).2 = true
      ∧ (pushManyF es 65535).1.push (es 65535) = (false, (pushManyF es 65535).1)
      ∧ (((pushManyF es 65535).1.pop.2).push (es 65535)).1 = true := by
  obtain ⟨h1, h2, h3, h4⟩ := pushManyF_spec es 65535 (by omega)
  have hfull := push_at_full es
  refine ⟨h4, hfull, ?_⟩
  have hne : ¬ ((pushManyF es 65535).1.head = (pushManyF es 65535).1.tail) := by
    rw [h1, h2]
    omega
  obtain ⟨hh, ht⟩ := pop_head_of_ne (pushManyF es 65535).1 hne
  apply push_fst_of_ne
  rw [hh, ht, h1, h2]
  decide

/-- Claim C6.  For every finite sequence of sequential ledger operations
starting from the freshly constructed tracker, `current_usage` equals the
sum of the sizes of all entries currently in the table, and
`alloc_count - free_count` equals the number of entries currently in the
table. -/
theorem claim_C6_counter_consistency (ops : List LedgerOp) :
    (runOps ops initialTracker).current_usage = tableUsage (runOps ops initialTracker)
      ∧ (runOps ops initialTracker).alloc_count - (runOps ops initialTracker).free_count
          = tableSize (runOps ops initialTracker) := by
  have hts : tableSize initialTracker = 0 := by
    simp [initialTracker, tableSize]
  have htu : tableUsage initialTracker = 0 := by
    simp [initialTracker, tableUsage, bucketBytes]
  have h0u : initialTracker.current_usage = tableUsage initialTracker := by
    rw [htu]
    rfl
  have h0s : initialTracker.alloc_count
      = tableSize initialTracker + initialTracker.free_count := by
    rw [hts]
    rfl
  obtain ⟨ha, hb⟩ := runOps_inv ops initialTracker h0u h0s
  exact ⟨ha, by omega⟩

/-- Claim C7.  Removing an identity that is not present in the ledger
returns the not-found result and returns the tracker completely unchanged:
the same table and the same five counters. -/
theorem claim_C7_remove_miss (t : AllocationTracker) (tag : Nat)
    (h : t.find tag = none) : t.untrack tag = (none, t) := by
  have hf : (t.buckets (hash_tag tag)).find? (fun curr => curr.tag == tag) = none := by
    unfold AllocationTracker.find at h
    cases hc : (t.buckets (hash_tag tag)).find? (fun curr => curr.tag == tag) with
    | none => rfl
    | some e =>
      rw [hc] at h
      exact absurd h (by simp)
  exact untrack_miss_eq t tag (removeFirst_eq_none_of_find?_eq_none tag _ hf)

/-- Claim C7, witness: tag 7 is not tracked after tracking only tag 42,
and removing it returns not-found with the tracker unchanged. -/
theorem claim_C7_witness :
    (initialTracker.track 42 rEx1).find 7 = none
      ∧ (initialTracker.track 42 rEx1).untrack 7 = (none, initialTracker.track 42 rEx1) :=
  ⟨by decide, claim_C7_remove_miss (initialTracker.track 42 rEx1) 7 (by decide)⟩

/-- Claim C8.  With sampling enabled and interval N ≥ 1, the decision
sequence over K consecutive calls is the deterministic function of the
starting counter value c given by testing `(c + j) % N == 0`, and the
number of true decisions is exactly `⌊K / N⌋` or `⌈K / N⌉`. -/
theorem claim_C8_sampling_fidelity (N c K : Nat) (hN : 1 ≤ N) :
    (gateRun N c K).1 = (List.range K).map (fun j => ((c + j) % N == 0))
      ∧ ((gateRun N c K).1.count true = K / N
          ∨ (gateRun N c K).1.count true = (K + N - 1) / N) := by
  refine ⟨gateRun_fst N c K, ?_⟩
  rw [gateRun_count]
  exact hitCount_floor_or_ceil N hN c K

/-- Claim C8, witness: interval 3, starting counter 5, 7 calls. -/
theorem claim_C8_witness :
    1 ≤ 3
      ∧ ((gateRun 3 5 7).1 = (List.range 7).map (fun j => ((5 + j) % 3 == 0))
          ∧ ((gateRun 3 5 7).1.count true = 7 / 3
              ∨ (gateRun 3 5 7).1.count true = (7 + 3 - 1) / 3)) :=
  ⟨by decide, claim_C8_sampling_fidelity 3 5 7 (by decide)⟩

/-- Claim C9.  `setSamplingInterval(n)` with n > 0 stores n as the
interval and enables sampling; with n ≤ 0 it disables sampling and leaves
the stored interval unchanged. -/
theorem claim_C9_setSamplingInterval (n : Int) (s : SamplingState) :
    (setSamplingInterval n s).g_sampling_enabled = decide (0 < n)
      ∧ (setSamplingInterval n s).g_sampling_interval
          = (if 0 < n then n else s.g_sampling_interval) := by
  unfold setSamplingInterval
  by_cases h : (0 : Int) < n
  · simp [h]
  · simp [h]

/-- Claim C10.  After `insert(id, r1)` then `insert(id, r2)` (no
intervening remove), both `find` and `remove` operate on the most recently
inserted entry: `find(id)` returns r2, `remove(id)` returns r2 and removes
exactly that entry (every bucket equals what it was before the second
insert), and a subsequent `find(id)` returns r1. -/
theorem claim_C10_lifo (t : AllocationTracker) (tag : Nat) (r1 r2 : AllocationInfo) :
    ((t.track tag r1).track tag r2).find tag = some r2
      ∧ (((t.track tag r1).track tag r2).untrack tag).1 = some r2
      ∧ (∀ i, ((((t.track tag r1).track tag r2).untrack tag).2).buckets i
            = (t.track tag r1).buckets i)
      ∧ ((((t.track tag r1).track tag r2).untrack tag).2).find tag = some r1 := by
  have hr : removeFirst tag (((t.track tag r1).track tag r2).buckets (hash_tag tag))
      = some (r2, (t.track tag r1).buckets (hash_tag tag)) := by
    rw [track_buckets_same]
    exact removeFirst_cons_self tag r2 _
  have he := untrack_found ((t.track tag r1).track tag r2) tag r2
      ((t.track tag r1).buckets (hash_tag tag)) hr
  have hbuckets : ∀ i, ((((t.track tag r1).track tag r2).untrack tag).2).buckets i
      = (t.track tag r1).buckets i := by
    intro i
    rw [he]
    by_cases hi : i = hash_tag tag
    · subst hi
      simp
    · have h2 := track_buckets_other (t.track tag r1) tag r2 i hi
      simp [hi, h2]
  refine ⟨find_track_same (t.track tag r1) tag r2, ?_, hbuckets, ?_⟩
  · rw [he]
  · have hb := hbuckets (hash_tag tag)
    unfold AllocationTracker.find
    rw [hb, track_buckets_same]
    simp [List.find?]
